import Mathlib

/-!
Verification development for the hookbase-go SDK.

Shallow embedding of the two in-scope components:
* the signed-webhook verification engine (`webhook.go`): secret normalization,
  HMAC-SHA256 signing, base64, header parsing and `VerifyWithTolerance`;
* the resilient request transport (`hookbase.go`): error classification
  (`mapError`), the retry loop of `transport.do`, and the backoff computation.

Go byte strings are modelled as `List Nat` (each element a byte value < 256);
machine integers as `Int`/`Nat` with explicit 64-bit wrap-around where Go can
overflow; `float64` values that arise (the timestamp-tolerance comparison and
the backoff base) are integers after IEEE-754 rounding, modelled exactly by
`roundF` (round to 53-bit mantissa, ties to even).
-/

set_option maxRecDepth 100000

namespace Hookbase

/-- Byte strings: Go `[]byte` / `string` values as lists of byte values. -/
abbrev Bytes := List Nat

/-- ASCII byte list of a Lean string literal (all literals used are ASCII). -/
def s2b (s : String) : Bytes := s.data.map Char.toNat

/-! ### SHA-256 (crypto/sha256) -/

/-- Truncation to a 32-bit word. -/
def w32 (x : Nat) : Nat := x % 4294967296

def rotr (n x : Nat) : Nat := w32 ((x >>> n) ||| (x <<< (32 - n)))

def shr (n x : Nat) : Nat := x >>> n

def xor32 (a b : Nat) : Nat := a ^^^ b

def not32 (x : Nat) : Nat := x ^^^ 4294967295

def bigSigma0 (x : Nat) : Nat := xor32 (xor32 (rotr 2 x) (rotr 13 x)) (rotr 22 x)

def bigSigma1 (x : Nat) : Nat := xor32 (xor32 (rotr 6 x) (rotr 11 x)) (rotr 25 x)

def smallSigma0 (x : Nat) : Nat := xor32 (xor32 (rotr 7 x) (rotr 18 x)) (shr 3 x)

def smallSigma1 (x : Nat) : Nat := xor32 (xor32 (rotr 17 x) (rotr 19 x)) (shr 10 x)

def chf (e f g : Nat) : Nat := xor32 (e &&& f) ((not32 e) &&& g)

def majf (a b c : Nat) : Nat := xor32 (xor32 (a &&& b) (a &&& c)) (b &&& c)

/-- The 64 SHA-256 round constants, written in decimal. -/
def sha256K : List Nat :=
  [1116352408, 1899447441, 3049323471, 3921009573, 961987163, 1508970993,
   2453635748, 2870763221, 3624381080, 310598401, 607225278, 1426881987,
   1925078388, 2162078206, 2614888103, 3248222580, 3835390401, 4022224774,
   264347078, 604807628, 770255983, 1249150122, 1555081692, 1996064986,
   2554220882, 2821834349, 2952996808, 3210313671, 3336571891, 3584528711,
   113926993, 338241895, 666307205, 773529912, 1294757372, 1396182291,
   1695183700, 1986661051, 2177026350, 2456956037, 2730485921, 2820302411,
   3259730800, 3345764771, 3516065817, 3600352804, 4094571909, 275423344,
   430227734, 506948616, 659060556, 883997877, 958139571, 1322822218,
   1537002063, 1747873779, 1955562222, 2024104815, 2227730452, 2361852424,
   2428436474, 2756734187, 3204031479, 3329325298]

/-- The eight SHA-256 initial hash words, written in decimal. -/
def sha256H0 : List Nat :=
  [1779033703, 3144134277, 1013904242, 2773480762,
   1359893119, 2600822924, 528734635, 1541459225]

/-- Pack bytes (big-endian) into 32-bit words, 4 bytes per word. -/
def bytesToWords : Bytes → List Nat
  | a :: b :: c :: d :: rest => (((a * 256 + b) * 256 + c) * 256 + d) :: bytesToWords rest
  | _ => []

/-- Extend the (reversed) message schedule by `k` further words.
The head of `w` is the most recent word, so `W[i-2]` is index 1, `W[i-7]` index 6,
`W[i-15]` index 14 and `W[i-16]` index 15. -/
def extendW : Nat → List Nat → List Nat
  | 0, w => w
  | k + 1, w =>
      let nw := w32 (smallSigma1 (w.getD 1 0) + w.getD 6 0 + smallSigma0 (w.getD 14 0) + w.getD 15 0)
      extendW k (nw :: w)

/-- The eight working variables of the compression loop. -/
structure Sha256State where
  a : Nat
  b : Nat
  c : Nat
  d : Nat
  e : Nat
  f : Nat
  g : Nat
  h : Nat
deriving DecidableEq

/-- One round of the compression loop; `kw` is the pair (round constant, schedule word). -/
def roundStep (st : Sha256State) (kw : Nat × Nat) : Sha256State :=
  let t1 := w32 (st.h + bigSigma1 st.e + chf st.e st.f st.g + kw.1 + kw.2)
  let t2 := w32 (bigSigma0 st.a + majf st.a st.b st.c)
  { a := w32 (t1 + t2), b := st.a, c := st.b, d := st.c,
    e := w32 (st.d + t1), f := st.e, g := st.f, h := st.g }

/-- One compression of a 16-word block into the running hash (8 words). -/
def sha256Block (hs : List Nat) (block : List Nat) : List Nat :=
  let w := (extendW 48 block.reverse).reverse
  let init : Sha256State :=
    { a := hs.getD 0 0, b := hs.getD 1 0, c := hs.getD 2 0, d := hs.getD 3 0,
      e := hs.getD 4 0, f := hs.getD 5 0, g := hs.getD 6 0, h := hs.getD 7 0 }
  let fin := (sha256K.zip w).foldl roundStep init
  [w32 (hs.getD 0 0 + fin.a), w32 (hs.getD 1 0 + fin.b), w32 (hs.getD 2 0 + fin.c),
   w32 (hs.getD 3 0 + fin.d), w32 (hs.getD 4 0 + fin.e), w32 (hs.getD 5 0 + fin.f),
   w32 (hs.getD 6 0 + fin.g), w32 (hs.getD 7 0 + fin.h)]

/-- Process the padded word stream, 16 words per block. -/
def sha256Blocks (hs : List Nat) : List Nat → List Nat
  | w0 :: w1 :: w2 :: w3 :: w4 :: w5 :: w6 :: w7 ::
    w8 :: w9 :: w10 :: w11 :: w12 :: w13 :: w14 :: w15 :: rest =>
      sha256Blocks (sha256Block hs [w0, w1, w2, w3, w4, w5, w6, w7,
                                    w8, w9, w10, w11, w12, w13, w14, w15]) rest
  | _ => hs

/-- SHA-256 padding: 0x80, zeros to 56 mod 64, then the bit length as 8 big-endian bytes. -/
def sha256Pad (msg : Bytes) : Bytes :=
  let len := msg.length
  let zeros := (119 - len % 64) % 64
  let bitLen := 8 * len
  msg ++ [128] ++ List.replicate zeros 0 ++
    [(bitLen >>> 56) % 256, (bitLen >>> 48) % 256, (bitLen >>> 40) % 256, (bitLen >>> 32) % 256,
     (bitLen >>> 24) % 256, (bitLen >>> 16) % 256, (bitLen >>> 8) % 256, bitLen % 256]

/-- Unpack 32-bit words into big-endian bytes. -/
def wordsToBytes : List Nat → Bytes
  | [] => []
  | w :: rest => (w >>> 24) % 256 :: (w >>> 16) % 256 :: (w >>> 8) % 256 :: w % 256 :: wordsToBytes rest

/-- SHA-256 of a byte string (crypto/sha256). -/
def sha256 (msg : Bytes) : Bytes :=
  wordsToBytes (sha256Blocks sha256H0 (bytesToWords (sha256Pad msg)))

/-- HMAC-SHA256 (crypto/hmac with crypto/sha256): keys longer than the 64-byte
block are first hashed; the key is zero-padded and xored with the ipad/opad bytes. -/
def hmacSha256 (key msg : Bytes) : Bytes :=
  let k0 := if key.length > 64 then sha256 key else key
  let kp := k0 ++ List.replicate (64 - k0.length) 0
  let ipad := kp.map (fun b => b ^^^ 0x36)
  let opad := kp.map (fun b => b ^^^ 0x5c)
  sha256 (opad ++ sha256 (ipad ++ msg))

/-! ### base64 (encoding/base64, StdEncoding) -/

/-- The standard base64 alphabet: value (< 64) to ASCII byte. -/
def b64Char (n : Nat) : Nat :=
  if n < 26 then 65 + n
  else if n < 52 then 97 + (n - 26)
  else if n < 62 then 48 + (n - 52)
  else if n = 62 then 43
  else 47

/-- Inverse of the alphabet: ASCII byte to value; `none` for bytes outside it. -/
def b64Val (c : Nat) : Option Nat :=
  if 65 ≤ c ∧ c ≤ 90 then some (c - 65)
  else if 97 ≤ c ∧ c ≤ 122 then some (c - 97 + 26)
  else if 48 ≤ c ∧ c ≤ 57 then some (c - 48 + 52)
  else if c = 43 then some 62
  else if c = 47 then some 63
  else none

/-- StdEncoding encode with `=` (61) padding. Go's shift-and-mask arithmetic is
written with `*`, `/`, `%`, which agrees with it on byte inputs. -/
def base64Encode : Bytes → Bytes
  | [] => []
  | [a] => [b64Char (a / 4), b64Char (a % 4 * 16), 61, 61]
  | [a, b] => [b64Char (a / 4), b64Char (a % 4 * 16 + b / 16), b64Char (b % 16 * 4), 61]
  | a :: b :: c :: rest =>
      b64Char (a / 4) :: b64Char (a % 4 * 16 + b / 16) :: b64Char (b % 16 * 4 + c / 64) ::
        b64Char (c % 64) :: base64Encode rest

/-- Decode whole 4-character quanta; `=` padding is legal only in a final quantum
with at least two data characters, exactly as Go's StdEncoding decoder accepts. -/
def b64DecodeQuanta : Bytes → Option Bytes
  | [] => some []
  | c1 :: c2 :: c3 :: c4 :: rest =>
      match b64Val c1, b64Val c2 with
      | some v1, some v2 =>
          if c3 = 61 then
            if c4 = 61 ∧ rest = [] then some [(v1 * 4 + v2 / 16) % 256] else none
          else
            match b64Val c3 with
            | some v3 =>
                if c4 = 61 then
                  if rest = [] then some [(v1 * 4 + v2 / 16) % 256, (v2 % 16 * 16 + v3 / 4) % 256]
                  else none
                else
                  match b64Val c4 with
                  | some v4 =>
                      match b64DecodeQuanta rest with
                      | some bs =>
                          some ((v1 * 4 + v2 / 16) % 256 :: (v2 % 16 * 16 + v3 / 4) % 256 ::
                                (v3 % 4 * 64 + v4) % 256 :: bs)
                      | none => none
                  | none => none
            | none => none
      | _, _ => none
  | _ => none

/-- base64.StdEncoding.DecodeString: carriage returns and newlines are ignored,
everything else must form legal padded quanta; `none` models the returned error. -/
def base64DecodeGo (s : Bytes) : Option Bytes :=
  b64DecodeQuanta (s.filter (fun c => !(c == 13) && !(c == 10)))

/-! ### Decimal formatting and parsing (strconv) -/

/-- Decimal digits of `n`, most significant first; `fuel` bounds the recursion
(any fuel above the digit count gives the same result). -/
def natToDecAux : Nat → Nat → Bytes
  | 0, _ => []
  | fuel + 1, n => if n < 10 then [48 + n] else natToDecAux fuel (n / 10) ++ [48 + n % 10]

def natToDec (n : Nat) : Bytes := natToDecAux (n + 1) n

/-- strconv.FormatInt(i, 10). -/
def intToDec (i : Int) : Bytes := if i < 0 then 45 :: natToDec (-i).toNat else natToDec i.toNat

/-- Fold decimal digits onto an accumulator; `none` on a non-digit byte. -/
def parseDecDigits : Nat → Bytes → Option Nat
  | acc, [] => some acc
  | acc, c :: rest =>
      if 48 ≤ c ∧ c ≤ 57 then parseDecDigits (acc * 10 + (c - 48)) rest else none

/-- strconv.ParseInt(s, 10, 64) (also strconv.Atoi on 64-bit platforms):
optional sign, at least one digit, 64-bit range check. Any syntax or range
failure is an error, modelled as `none`. -/
def parseInt64 (s : Bytes) : Option Int :=
  match s with
  | [] => none
  | c :: rest =>
      let digits := if c = 43 ∨ c = 45 then rest else c :: rest
      if digits = [] then none
      else
        match parseDecDigits 0 digits with
        | none => none
        | some n =>
            if c = 45 then (if (n : Int) ≤ 2 ^ 63 then some (-(n : Int)) else none)
            else (if (n : Int) < 2 ^ 63 then some ((n : Int)) else none)

/-! ### 64-bit and float64 arithmetic -/

/-- Two's-complement wrap-around of 64-bit integer arithmetic. -/
def wrap64 (x : Int) : Int := (x + 2 ^ 63) % 2 ^ 64 - 2 ^ 63

/-- Floor of the base-2 logarithm, by fuel-bounded recursion (`log2F n = Nat.log2 n`,
proved below; the fuelled form evaluates inside the kernel). -/
def log2Aux : Nat → Nat → Nat
  | 0, _ => 0
  | fuel + 1, n => if n ≤ 1 then 0 else log2Aux fuel (n / 2) + 1

def log2F (n : Nat) : Nat := log2Aux n n

/-- Round a natural number to the nearest value representable with a 53-bit
mantissa (ties to even): the effect of converting an `int64` magnitude to
`float64`. Values up to `2^53` are exact. -/
def roundNat53 (n : Nat) : Nat :=
  if n ≤ 2 ^ 53 then n
  else
    let e := log2F n - 52
    let q := n >>> e
    let r := n % 2 ^ e
    let half := 2 ^ (e - 1)
    let q' := if half < r ∨ (r = half ∧ q % 2 = 1) then q + 1 else q
    q' <<< e

/-- float64(x) for an `int64` value `x`, as the exact integer it represents. -/
def roundF (x : Int) : Int :=
  if 0 ≤ x then (roundNat53 x.toNat : Int) else -(roundNat53 (-x).toNat : Int)

/-- Go conversion of an integral float64 back to `int64`: the identity in range;
out of range the result is implementation-specific (amd64 yields the minimum). -/
def f2i64 (x : Int) : Int := if -(2 ^ 63) ≤ x ∧ x < 2 ^ 63 then x else -(2 ^ 63)

/-- Smallest c with d ≤ n * 2^c, searched with fuel (fuel = d suffices for n ≥ 1). -/
def ceilLog2Aux : Nat → Nat → Nat → Nat
  | 0, _, _ => 0
  | fuel + 1, n, d => if d ≤ n then 0 else ceilLog2Aux fuel (2 * n) d + 1

/-- Floor of log2 of the positive rational n / d. -/
def ratLog2 (n d : Nat) : Int :=
  if d ≤ n then (log2F (n / d) : Int) else -(ceilLog2Aux d n d : Int)

/-- Round n / d to the nearest integer, ties to even. -/
def roundDivTE (n d : Nat) : Nat :=
  if 2 * (n % d) < d then n / d
  else if d < 2 * (n % d) then n / d + 1
  else (if (n / d) % 2 = 0 then n / d else n / d + 1)

/-- IEEE-754 binary64 rounding (round to nearest, ties to even) of the
nonnegative rational n / d, returned as a dyadic pair (a, t) of value a / 2^t:
the 53-bit significand is placed so that 2^52 ≤ a / 2^t < 2^53 scaled by the
exponent (no overflow/subnormal handling; all inputs in play are in range). -/
def fl64pair (n d : Nat) : Nat × Nat :=
  if n = 0 then (0, 0)
  else if 0 ≤ ratLog2 n d - 52 then
    (roundDivTE n (d * 2 ^ (ratLog2 n d - 52).toNat) * 2 ^ (ratLog2 n d - 52).toNat, 0)
  else (roundDivTE (n * 2 ^ (52 - ratLog2 n d).toNat) d, (52 - ratLog2 n d).toNat)

/-- The rational value of float64(n / d). -/
def fl64nd (n d : Nat) : ℚ := ((fl64pair n d).1 : ℚ) / ((2 : ℚ) ^ (fl64pair n d).2)

/-- float64 rounding of the possibly negative rational num / den, as a signed
dyadic pair (a, t) of value a / 2^t. -/
def fl64ipair (num : Int) (den : Nat) : Int × Nat :=
  if 0 ≤ num then (((fl64pair num.toNat den).1 : Int), (fl64pair num.toNat den).2)
  else (-((fl64pair (-num).toNat den).1 : Int), (fl64pair (-num).toNat den).2)

/-- Truncation toward zero of the dyadic a / 2^t, Go's float-to-integer
conversion applied to such a value. -/
def truncDyadic (a : Int) (t : Nat) : Int :=
  if 0 ≤ a then ((a.toNat / 2 ^ t : Nat) : Int) else -(((-a).toNat / 2 ^ t : Nat) : Int)

/-! ### Byte-string helpers (strings) -/

/-- strings.HasPrefix s pre. -/
def bytesStartWith : Bytes → Bytes → Bool
  | _, [] => true
  | [], _ :: _ => false
  | c :: s, p :: ps => c == p && bytesStartWith s ps

/-- strings.ToLower restricted to ASCII (every header name in play is ASCII). -/
def toLowerB (s : Bytes) : Bytes := s.map (fun c => if 65 ≤ c ∧ c ≤ 90 then c + 32 else c)

/-- strings.ToUpper restricted to ASCII, used to state case-insensitivity. -/
def toUpperB (s : Bytes) : Bytes := s.map (fun c => if 97 ≤ c ∧ c ≤ 122 then c - 32 else c)

/-- strings.Split(s, sep) for a one-byte separator: splits at every occurrence,
keeping empty pieces. -/
def splitOn (sep : Nat) : Bytes → List Bytes
  | [] => [[]]
  | c :: rest =>
      if c = sep then [] :: splitOn sep rest
      else
        match splitOn sep rest with
        | r :: rs => (c :: r) :: rs
        | [] => [[c]]

/-- strings.SplitN(s, sep, 2): split at the first separator only. -/
def splitN2 (sep : Nat) : Bytes → List Bytes
  | [] => [[]]
  | c :: rest =>
      if c = sep then [[], rest]
      else
        match splitN2 sep rest with
        | r :: rs => (c :: r) :: rs
        | [] => [[c]]

/-! ### Webhook verification (webhook.go) -/

/-- Header sets: association lists of (name, value) byte strings. -/
abbrev Headers := List (Bytes × Bytes)

/-- normalizeHeaders: lower-case every header name. -/
def normalizeHeaders (h : Headers) : Headers := h.map (fun kv => (toLowerB kv.1, kv.2))

/-- Go map lookup over bindings inserted in list order: the last binding for a
key wins; a missing key yields the zero value `""`. -/
def getHeaderD (h : Headers) (key : Bytes) : Bytes :=
  h.foldl (fun acc kv => if kv.1 = key then kv.2 else acc) []

/-- NewWebhook: `none` models the panic on an empty secret; otherwise the
optional `whsec_` tag is stripped and the rest base64-decoded, falling back to
the raw bytes when that fails. The payload of `some` is the stored HMAC key. -/
def newWebhook (secret : Bytes) : Option Bytes :=
  if secret = [] then none
  else
    let s := if bytesStartWith secret (s2b "whsec_") then secret.drop 6 else secret
    some ((base64DecodeGo s).getD s)

/-- (*Webhook).sign: base64 of the HMAC-SHA256 of the content under the key. -/
def sign (key content : Bytes) : Bytes := base64Encode (hmacSha256 key content)

/-- parseSignatures: space-separated entries, each split at its first comma into
(version, signature); entries without a comma are dropped. -/
def parseSignatures (header : Bytes) : List (Bytes × Bytes) :=
  (splitOn 32 header).foldr
    (fun part acc =>
      match splitN2 44 part with
      | [v, s] => (v, s) :: acc
      | _ => acc)
    []

/-- subtle.ConstantTimeCompare: 1 iff the slices have equal length and equal
contents, else 0 (functional behaviour; the timing property is outside this model). -/
def constantTimeCompare (x y : Bytes) : Nat :=
  if x.length = y.length then (if x = y then 1 else 0) else 0

/-- The message of the timestamp-tolerance error, with the observed drift and
the configured tolerance rendered in decimal. -/
def toleranceMsg (drift tol : Int) : Bytes :=
  s2b "timestamp outside tolerance (" ++ intToDec drift ++ s2b "s > " ++ intToDec tol ++ s2b "s)"

/-- The signature phase of VerifyWithTolerance: compute the expected signature,
parse the header, and accept when some v1 entry matches after base64 decoding. -/
def checkSignaturePhase (key signedContent sigHeader : Bytes) : Option Bytes :=
  let expected := sign key signedContent
  let signatures := parseSignatures sigHeader
  if signatures = [] then some (s2b "no valid signatures found")
  else if signatures.any (fun p =>
      if p.1 = s2b "v1" then
        match base64DecodeGo expected, base64DecodeGo p.2 with
        | some e, some a => decide (e.length = a.length) && decide (constantTimeCompare e a = 1)
        | _, _ => false
      else false)
  then none
  else some (s2b "signature verification failed")

/-- (*Webhook).VerifyWithTolerance. `key` is the stored secret, `now` the value
of time.Now().Unix(); the result is `none` on success or the
WebhookVerificationError message. The timestamp comparison goes through
float64: `diff := |float64(now - ts)|` with 64-bit wrap-around in `now - ts`. -/
def verifyWithTolerance (key payload : Bytes) (headers : Headers) (toleranceSec : Int)
    (now : Int) : Option Bytes :=
  let normalized := normalizeHeaders headers
  let webhookID := getHeaderD normalized (s2b "webhook-id")
  let webhookTimestamp := getHeaderD normalized (s2b "webhook-timestamp")
  let webhookSignature := getHeaderD normalized (s2b "webhook-signature")
  if webhookID = [] then some (s2b "missing webhook-id header")
  else if webhookTimestamp = [] then some (s2b "missing webhook-timestamp header")
  else if webhookSignature = [] then some (s2b "missing webhook-signature header")
  else
    match parseInt64 webhookTimestamp with
    | none => some (s2b "invalid timestamp format")
    | some ts =>
        let diff := |roundF (wrap64 (now - ts))|
        if roundF toleranceSec < diff then some (toleranceMsg (f2i64 diff) toleranceSec)
        else
          checkSignaturePhase key (webhookID ++ [46] ++ webhookTimestamp ++ [46] ++ payload)
            webhookSignature

/-- (*Webhook).Verify: the default 300-second tolerance. -/
def verifyGo (key payload : Bytes) (headers : Headers) (now : Int) : Option Bytes :=
  verifyWithTolerance key payload headers 300 now

/-- (*Webhook).GenerateTestHeaders at wall-clock time `now`. -/
def generateTestHeaders (key payload webhookID : Bytes) (now : Int) : Headers :=
  let id := if webhookID = [] then s2b "msg_test" else webhookID
  let timestamp := intToDec now
  let signedContent := id ++ [46] ++ timestamp ++ [46] ++ payload
  let signature := sign key signedContent
  [(s2b "webhook-id", id),
   (s2b "webhook-timestamp", timestamp),
   (s2b "webhook-signature", s2b "v1," ++ signature)]

/-- The spec's example payload: the 16 bytes of the JSON text mapping "event"
to "test" (opening brace, "event", colon, "test", closing brace). -/
def examplePayload : Bytes :=
  [123, 34, 101, 118, 101, 110, 116, 34, 58, 34, 116, 101, 115, 116, 34, 125]

/-! ### Transport (hookbase.go) -/

/-- The error kinds transport.do can produce, with the fields the claims
concern (messages, codes and request ids are elided). -/
inductive HErr where
  | auth
  | forbidden
  | notFound
  | validation
  | rateLimit (retryAfter : Int)
  | api (status : Nat)
  | network
  | timeout
deriving DecidableEq

/-- transport.mapError, reduced to the status switch and the Retry-After
parsing (the error-envelope message/code extraction is elided). -/
def mapError (status : Nat) (retryAfter : Bytes) : HErr :=
  if status = 401 then .auth
  else if status = 403 then .forbidden
  else if status = 404 then .notFound
  else if status = 400 ∨ status = 422 then .validation
  else if status = 429 then
    .rateLimit (if retryAfter = [] then 60 else (parseInt64 retryAfter).getD 60)
  else .api status

/-- The observable outcome of one dispatched HTTP attempt. -/
inductive Outcome where
  | netErr (ctxCancelled : Bool)
  | bodyReadErr
  | resp (status : Nat) (retryAfter : Bytes)

/-- A sleep performed between attempts: an exponential-backoff sleep for a given
attempt number, or a server-directed Retry-After sleep of that many seconds. -/
inductive SleepEv where
  | backoffSleep (attempt : Nat)
  | retrySleep (seconds : Int)
deriving DecidableEq

inductive DoResult where
  | success
  | failure (e : HErr)
deriving DecidableEq

/-- The retry loop of transport.do. `oc` gives each dispatch's outcome. Returns
(result, number of dispatched attempts, sleeps performed in order). Request
building and response-body decoding are elided (no claim concerns them); a nil
`lastErr` at loop exhaustion is returned as success, exactly as the Go code
returns `lastErr`. -/
def doAux (oc : Nat → Outcome) (maxRetries : Int) :
    Nat → Nat → Option HErr → DoResult × Nat × List SleepEv
  | _, 0, lastErr =>
      ((match lastErr with | some e => .failure e | none => .success), 0, [])
  | attempt, fuel + 1, lastErr =>
      match oc attempt with
      | .netErr cancelled =>
          if cancelled then (.failure .timeout, 1, [])
          else if (attempt : Int) < maxRetries then
            let r := doAux oc maxRetries (attempt + 1) fuel (some .network)
            (r.1, r.2.1 + 1, .backoffSleep attempt :: r.2.2)
          else (.failure .network, 1, [])
      | .bodyReadErr =>
          if (attempt : Int) < maxRetries then
            let r := doAux oc maxRetries (attempt + 1) fuel (some .network)
            (r.1, r.2.1 + 1, .backoffSleep attempt :: r.2.2)
          else (.failure .network, 1, [])
      | .resp status ra =>
          if 200 ≤ status ∧ status < 300 then (.success, 1, [])
          else
            match mapError status ra with
            | .auth => (.failure .auth, 1, [])
            | .forbidden => (.failure .forbidden, 1, [])
            | .notFound => (.failure .notFound, 1, [])
            | .validation => (.failure .validation, 1, [])
            | .rateLimit v =>
                if (attempt : Int) < maxRetries then
                  let r := doAux oc maxRetries (attempt + 1) fuel lastErr
                  (r.1, r.2.1 + 1, .retrySleep v :: r.2.2)
                else (.failure (.rateLimit v), 1, [])
            | .api st =>
                if (attempt : Int) < maxRetries then
                  let r := doAux oc maxRetries (attempt + 1) fuel (some (.api st))
                  (r.1, r.2.1 + 1, .backoffSleep attempt :: r.2.2)
                else (.failure (.api st), 1, [])
            | .network =>
                if (attempt : Int) < maxRetries then
                  let r := doAux oc maxRetries (attempt + 1) fuel (some .network)
                  (r.1, r.2.1 + 1, .backoffSleep attempt :: r.2.2)
                else (.failure .network, 1, [])
            | .timeout =>
                if (attempt : Int) < maxRetries then
                  let r := doAux oc maxRetries (attempt + 1) fuel (some .timeout)
                  (r.1, r.2.1 + 1, .backoffSleep attempt :: r.2.2)
                else (.failure .timeout, 1, [])

/-- transport.do for a given outcome oracle and configured maxRetries. -/
def doGo (oc : Nat → Outcome) (maxRetries : Int) : DoResult × Nat × List SleepEv :=
  doAux oc maxRetries 0 (maxRetries + 1).toNat none

/-- int(math.Pow(2, k)): exact for k ≤ 62; from 2^63 on, the float-to-int64
conversion overflows (amd64 yields the minimum int64). -/
def powIntConv (k : Nat) : Int := if k ≤ 62 then 2 ^ k else -(2 ^ 63)

/-- The base of transport.backoff for attempt `k`:
math.Min(float64(1000*int(math.Pow(2, k))), 10000), with the 64-bit product
wrap and the int64-to-float64 rounding made explicit. -/
def backoffBase (k : Nat) : Int := min (roundF (wrap64 (1000 * powIntConv k))) 10000

/-- The sleep of transport.backoff in nanoseconds for attempt `k`, when
rand.Float64() returns the dyadic a / 2^t (every value it can return has this
form, with a < 2^t): jitter is the float64 product fl64(a/2^t * 1000), the sum
base+jitter is again rounded by float64 addition, time.Duration truncates it
toward zero to whole milliseconds, and the multiplication by time.Millisecond
(10^6 ns) wraps around int64. -/
def backoffSleepNs (k : Nat) (a t : Nat) : Int :=
  let j := fl64pair (1000 * a) (2 ^ t)
  let sum := fl64ipair (backoffBase k * 2 ^ j.2 + (j.1 : Int)) (2 ^ j.2)
  wrap64 (truncDyadic sum.1 sum.2 * 1000000)

end Hookbase

/-! ## Supporting lemmas -/

namespace Hookbase

theorem b64Char_spec : ∀ n, n < 64 →
    b64Val (b64Char n) = some n ∧ b64Char n ≠ 61 ∧ b64Char n ≠ 32 ∧ b64Char n ≠ 44 ∧
      b64Char n ≠ 13 ∧ b64Char n ≠ 10 := by decide

/-- Every byte of a base64 encoding of genuine bytes is the padding byte or an
alphabet byte. -/
theorem base64Encode_mem : ∀ bs : Bytes, (∀ b ∈ bs, b < 256) →
    ∀ c ∈ base64Encode bs, c = 61 ∨ ∃ n, n < 64 ∧ c = b64Char n
  | [], _, c, hc => by simp [base64Encode] at hc
  | [a], hb, c, hc => by
      have ha : a < 256 := hb a (by simp)
      simp only [base64Encode, List.mem_cons, List.not_mem_nil, or_false] at hc
      rcases hc with h | h | h | h
      · exact Or.inr ⟨a / 4, by omega, h⟩
      · exact Or.inr ⟨a % 4 * 16, by omega, h⟩
      · exact Or.inl h
      · exact Or.inl h
  | [a, b], hb, c, hc => by
      have ha : a < 256 := hb a (by simp)
      have hbb : b < 256 := hb b (by simp)
      simp only [base64Encode, List.mem_cons, List.not_mem_nil, or_false] at hc
      rcases hc with h | h | h | h
      · exact Or.inr ⟨a / 4, by omega, h⟩
      · exact Or.inr ⟨a % 4 * 16 + b / 16, by omega, h⟩
      · exact Or.inr ⟨b % 16 * 4, by omega, h⟩
      · exact Or.inl h
  | a :: b :: cc :: rest, hb, c, hc => by
      have ha : a < 256 := hb a (by simp)
      have hbb : b < 256 := hb b (by simp)
      have hcc : cc < 256 := hb cc (by simp)
      simp only [base64Encode, List.mem_cons] at hc
      rcases hc with h | h | h | h | h
      · exact Or.inr ⟨a / 4, by omega, h⟩
      · exact Or.inr ⟨a % 4 * 16 + b / 16, by omega, h⟩
      · exact Or.inr ⟨b % 16 * 4 + cc / 64, by omega, h⟩
      · exact Or.inr ⟨cc % 64, by omega, h⟩
      · exact base64Encode_mem rest (fun x hx => hb x (by simp [hx])) c h

theorem base64Encode_no_special (bs : Bytes) (hb : ∀ b ∈ bs, b < 256) :
    ∀ c ∈ base64Encode bs, c ≠ 32 ∧ c ≠ 44 ∧ c ≠ 13 ∧ c ≠ 10 := by
  intro c hc
  rcases base64Encode_mem bs hb c hc with h | ⟨n, hn, h⟩
  · omega
  · have := (b64Char_spec n hn).2
    omega

/-- Decoding inverts encoding on genuine byte strings. -/
theorem b64DecodeQuanta_encode : ∀ bs : Bytes, (∀ b ∈ bs, b < 256) →
    b64DecodeQuanta (base64Encode bs) = some bs
  | [], _ => by simp [base64Encode, b64DecodeQuanta]
  | [a], hb => by
      have ha : a < 256 := hb a (by simp)
      have h1 := (b64Char_spec (a / 4) (by omega)).1
      have h2 := (b64Char_spec (a % 4 * 16) (by omega)).1
      simp only [base64Encode, b64DecodeQuanta, h1, h2, and_self, if_true]
      congr 1
      simp only [List.cons.injEq, and_true]
      omega
  | [a, b], hb => by
      have ha : a < 256 := hb a (by simp)
      have hbb : b < 256 := hb b (by simp)
      have h1 := (b64Char_spec (a / 4) (by omega)).1
      have h2 := (b64Char_spec (a % 4 * 16 + b / 16) (by omega)).1
      have h3 := (b64Char_spec (b % 16 * 4) (by omega)).1
      have hne := (b64Char_spec (b % 16 * 4) (by omega)).2.1
      simp only [base64Encode, b64DecodeQuanta, h1, h2, h3, if_neg hne, if_true]
      congr 1
      simp only [List.cons.injEq, and_true]
      constructor <;> omega
  | a :: b :: cc :: rest, hb => by
      have ha : a < 256 := hb a (by simp)
      have hbb : b < 256 := hb b (by simp)
      have hcc : cc < 256 := hb cc (by simp)
      have h1 := (b64Char_spec (a / 4) (by omega)).1
      have h2 := (b64Char_spec (a % 4 * 16 + b / 16) (by omega)).1
      have h3 := (b64Char_spec (b % 16 * 4 + cc / 64) (by omega)).1
      have h4 := (b64Char_spec (cc % 64) (by omega)).1
      have hne3 := (b64Char_spec (b % 16 * 4 + cc / 64) (by omega)).2.1
      have hne4 := (b64Char_spec (cc % 64) (by omega)).2.1
      have ih := b64DecodeQuanta_encode rest (fun x hx => hb x (by simp [hx]))
      simp only [base64Encode, b64DecodeQuanta, h1, h2, h3, h4, if_neg hne3, if_neg hne4, ih]
      congr 1
      simp only [List.cons.injEq]
      refine ⟨by omega, by omega, by omega, trivial⟩

theorem base64DecodeGo_encode (bs : Bytes) (hb : ∀ b ∈ bs, b < 256) :
    base64DecodeGo (base64Encode bs) = some bs := by
  unfold base64DecodeGo
  rw [List.filter_eq_self.2, b64DecodeQuanta_encode bs hb]
  intro c hc
  have := base64Encode_no_special bs hb c hc
  simp only [Bool.and_eq_true, Bool.not_eq_true']
  constructor <;> [skip; skip] <;> simp [beq_eq_false_iff_ne] <;> omega

/-! ### Decimal formatting round-trips -/

theorem parseDecDigits_append (xs : Bytes) : ∀ acc v ys, parseDecDigits acc xs = some v →
    parseDecDigits acc (xs ++ ys) = parseDecDigits v ys := by
  induction xs with
  | nil => intro acc v ys h; simp [parseDecDigits] at h; simp [h, parseDecDigits]
  | cons c rest ih =>
      intro acc v ys h
      simp only [parseDecDigits] at h ⊢
      by_cases hc : 48 ≤ c ∧ c ≤ 57
      · rw [if_pos hc] at h ⊢
        exact ih _ _ _ h
      · rw [if_neg hc] at h; exact absurd h (by simp)

theorem natToDecAux_parse : ∀ fuel n, n < fuel →
    parseDecDigits 0 (natToDecAux fuel n) = some n := by
  intro fuel
  induction fuel with
  | zero => omega
  | succ f ih =>
      intro n hn
      by_cases h10 : n < 10
      · simp only [natToDecAux, if_pos h10, parseDecDigits]
        rw [if_pos (by omega)]
        congr 1
        omega
      · simp only [natToDecAux, if_neg h10]
        have hrec : n / 10 < f := by omega
        rw [parseDecDigits_append _ 0 (n / 10) _ (ih (n / 10) hrec)]
        simp only [parseDecDigits]
        rw [if_pos (by omega)]
        congr 1
        omega

theorem natToDecAux_head : ∀ fuel n, n < fuel →
    ∃ c cs, natToDecAux fuel n = c :: cs ∧ 48 ≤ c ∧ c ≤ 57 := by
  intro fuel
  induction fuel with
  | zero => omega
  | succ f ih =>
      intro n hn
      by_cases h10 : n < 10
      · exact ⟨48 + n, [], by simp [natToDecAux, if_pos h10], by omega, by omega⟩
      · obtain ⟨c, cs, hc, hc1, hc2⟩ := ih (n / 10) (by omega)
        exact ⟨c, cs ++ [48 + n % 10], by simp [natToDecAux, if_neg h10, hc], hc1, hc2⟩

theorem natToDec_parse (n : Nat) : parseDecDigits 0 (natToDec n) = some n :=
  natToDecAux_parse (n + 1) n (Nat.lt_succ_self n)

theorem natToDec_head (n : Nat) : ∃ c cs, natToDec n = c :: cs ∧ 48 ≤ c ∧ c ≤ 57 :=
  natToDecAux_head (n + 1) n (Nat.lt_succ_self n)

theorem natToDec_ne_nil (n : Nat) : natToDec n ≠ [] := by
  obtain ⟨c, cs, hc, -, -⟩ := natToDec_head n
  simp [hc]

theorem intToDec_ne_nil (i : Int) : intToDec i ≠ [] := by
  unfold intToDec
  split
  · simp
  · exact natToDec_ne_nil _

theorem parseInt64_intToDec (i : Int) (h1 : -(2 ^ 63) ≤ i) (h2 : i < 2 ^ 63) :
    parseInt64 (intToDec i) = some i := by
  by_cases hneg : i < 0
  · have hrw : intToDec i = 45 :: natToDec (-i).toNat := by simp [intToDec, hneg]
    have hcond : ((45 : Nat) = 43 ∨ (45 : Nat) = 45) := by omega
    rw [hrw]
    simp only [parseInt64, hcond, or_true, if_true, if_neg (natToDec_ne_nil (-i).toNat),
      natToDec_parse]
    rw [if_pos (by push_cast; omega)]
    congr 1
    omega
  · obtain ⟨c, cs, hc, hc1, hc2⟩ := natToDec_head i.toNat
    have hrw : intToDec i = c :: cs := by rw [intToDec, if_neg hneg]; exact hc
    have hA : ¬(c = 43 ∨ c = 45) := by omega
    have hB : ¬(c = 45) := by omega
    rw [hrw]
    simp only [parseInt64, if_neg hA, ← hc, if_neg (natToDec_ne_nil i.toNat), natToDec_parse,
      if_neg hB]
    rw [if_pos (by push_cast; omega)]
    congr 1
    omega

/-! ### 64-bit wrap and float64 rounding -/

theorem wrap64_eq_self (x : Int) (h1 : -(2 ^ 63) ≤ x) (h2 : x < 2 ^ 63) : wrap64 x = x := by
  unfold wrap64
  rw [Int.emod_eq_of_lt (by omega) (by omega)]
  omega

theorem log2Aux_eq (fuel : Nat) : ∀ n, n ≤ fuel → log2Aux fuel n = Nat.log2 n := by
  induction fuel with
  | zero =>
      intro n hn
      have : n = 0 := by omega
      subst this
      rw [Nat.log2, if_neg (by omega)]
      rfl
  | succ f ih =>
      intro n hn
      by_cases h1 : n ≤ 1
      · rw [log2Aux, if_pos h1, Nat.log2, if_neg (by omega)]
      · rw [log2Aux, if_neg h1, ih (n / 2) (by omega)]
        conv_rhs => rw [Nat.log2]
        rw [if_pos (by omega)]

theorem log2F_eq (n : Nat) : log2F n = Nat.log2 n := log2Aux_eq n n le_rfl

theorem roundNat53_of_le (n : Nat) (h : n ≤ 2 ^ 53) : roundNat53 n = n := by
  unfold roundNat53
  rw [if_pos h]

theorem roundF_of_abs_le (x : Int) (h : |x| ≤ 2 ^ 53) : roundF x = x := by
  unfold roundF
  rcases abs_le.1 h with ⟨hl, hr⟩
  by_cases hx : 0 ≤ x
  · rw [if_pos hx, roundNat53_of_le _ (by omega)]; omega
  · rw [if_neg hx, roundNat53_of_le _ (by omega)]; omega

theorem roundF_zero : roundF 0 = 0 := by decide

/-! ### Byte bounds of SHA-256 and HMAC outputs -/

theorem wordsToBytes_lt : ∀ ws : List Nat, ∀ b ∈ wordsToBytes ws, b < 256 := by
  intro ws
  induction ws with
  | nil => simp [wordsToBytes]
  | cons w rest ih =>
      intro b hb
      simp only [wordsToBytes, List.mem_cons] at hb
      rcases hb with h | h | h | h | h
      all_goals first
        | (subst h; exact Nat.mod_lt _ (by omega))
        | (exact ih b h)

theorem sha256_lt (m : Bytes) : ∀ b ∈ sha256 m, b < 256 := by
  intro b hb
  exact wordsToBytes_lt _ b hb

theorem hmacSha256_lt (key m : Bytes) : ∀ b ∈ hmacSha256 key m, b < 256 := by
  intro b hb
  exact wordsToBytes_lt _ b hb

/-! ### Splitting and signature parsing -/

theorem splitOn_of_not_mem (sep : Nat) : ∀ l : Bytes, sep ∉ l → splitOn sep l = [l] := by
  intro l
  induction l with
  | nil => intro _; rfl
  | cons c rest ih =>
      intro h
      have hc : c ≠ sep := fun hh => h (by simp [hh])
      have hr : sep ∉ rest := fun hh => h (by simp [hh])
      simp only [splitOn, if_neg hc, ih hr]

theorem parseSignatures_v1 (sig : Bytes) (h32 : 32 ∉ sig) :
    parseSignatures (s2b "v1," ++ sig) = [(s2b "v1", sig)] := by
  have hs : s2b "v1," ++ sig = 118 :: 49 :: 44 :: sig := by
    have : s2b "v1," = [118, 49, 44] := by decide
    simp [this]
  have hmem : (32 : Nat) ∉ (118 :: 49 :: 44 :: sig : Bytes) := by
    simp only [List.mem_cons]
    push_neg
    exact ⟨by omega, by omega, by omega, fun hh => h32 hh⟩
  rw [hs, parseSignatures, splitOn_of_not_mem _ _ hmem]
  have hsplit : splitN2 44 (118 :: 49 :: 44 :: sig) = [[118, 49], sig] := by
    simp [splitN2]
  simp only [List.foldr, hsplit]
  rfl

/-! ### The signature phase -/

theorem constantTimeCompare_eq_one (x y : Bytes) :
    constantTimeCompare x y = 1 ↔ x = y := by
  unfold constantTimeCompare
  constructor
  · intro h
    by_cases hl : x.length = y.length
    · rw [if_pos hl] at h
      by_cases he : x = y
      · exact he
      · rw [if_neg he] at h; omega
    · rw [if_neg hl] at h; omega
  · intro h
    subst h
    simp

theorem lenCtc_eq (x y : Bytes) :
    (decide (x.length = y.length) && decide (constantTimeCompare x y = 1)) = decide (x = y) := by
  by_cases h : x = y
  · subst h
    simp [constantTimeCompare]
  · have hc : constantTimeCompare x y ≠ 1 := fun hc => h ((constantTimeCompare_eq_one x y).1 hc)
    simp [h, hc]

theorem sigPred_iff (key content : Bytes) (p : Bytes × Bytes) :
    ((if p.1 = s2b "v1" then
        match base64DecodeGo (sign key content), base64DecodeGo p.2 with
        | some e, some a => decide (e.length = a.length) && decide (constantTimeCompare e a = 1)
        | _, _ => false
      else false) = true) ↔
      p.1 = s2b "v1" ∧ base64DecodeGo p.2 = some (hmacSha256 key content) := by
  have hdec : base64DecodeGo (sign key content) = some (hmacSha256 key content) :=
    base64DecodeGo_encode _ (hmacSha256_lt key content)
  by_cases hv : p.1 = s2b "v1"
  · rw [if_pos hv, hdec]
    cases hdp : base64DecodeGo p.2 with
    | none => simp [hv]
    | some a =>
        simp only [lenCtc_eq, decide_eq_true_eq, Option.some.injEq]
        constructor
        · intro hh
          exact ⟨hv, hh.symm⟩
        · intro hh
          exact hh.2.symm
  · rw [if_neg hv]
    simp [hv]

theorem checkSig_none_iff (key content sigHeader : Bytes) :
    checkSignaturePhase key content sigHeader = none ↔
      ∃ p ∈ parseSignatures sigHeader,
        p.1 = s2b "v1" ∧ base64DecodeGo p.2 = some (hmacSha256 key content) := by
  unfold checkSignaturePhase
  by_cases hs : parseSignatures sigHeader = []
  · rw [if_pos hs, hs]
    simp
  · rw [if_neg hs]
    by_cases hany : ((parseSignatures sigHeader).any fun p =>
        if p.1 = s2b "v1" then
          match base64DecodeGo (sign key content), base64DecodeGo p.2 with
          | some e, some a => decide (e.length = a.length) && decide (constantTimeCompare e a = 1)
          | _, _ => false
        else false) = true
    · rw [if_pos hany]
      simp only [true_iff]
      obtain ⟨p, hp, hpred⟩ := List.any_eq_true.1 hany
      exact ⟨p, hp, (sigPred_iff key content p).1 hpred⟩
    · rw [if_neg hany]
      refine iff_of_false (by simp) ?_
      rintro ⟨p, hp, hp1, hp2⟩
      exact hany (List.any_eq_true.2 ⟨p, hp, (sigPred_iff key content p).2 ⟨hp1, hp2⟩⟩)

theorem checkSig_cases (key content sigHeader : Bytes) :
    checkSignaturePhase key content sigHeader = none ∨
    checkSignaturePhase key content sigHeader = some (s2b "no valid signatures found") ∨
    checkSignaturePhase key content sigHeader = some (s2b "signature verification failed") := by
  have hz : checkSignaturePhase key content sigHeader =
      (if parseSignatures sigHeader = [] then some (s2b "no valid signatures found")
       else if ((parseSignatures sigHeader).any fun p =>
            if p.1 = s2b "v1" then
              match base64DecodeGo (sign key content), base64DecodeGo p.2 with
              | some e, some a => decide (e.length = a.length) && decide (constantTimeCompare e a = 1)
              | _, _ => false
            else false) = true then none
       else some (s2b "signature verification failed")) := rfl
  rw [hz]
  split
  · right; left; rfl
  · split
    · left; rfl
    · right; right; rfl

theorem checkSig_v1_single (key1 key2 content : Bytes) :
    checkSignaturePhase key2 content (s2b "v1," ++ sign key1 content) =
      if hmacSha256 key2 content = hmacSha256 key1 content then none
      else some (s2b "signature verification failed") := by
  have h32 : (32 : Nat) ∉ sign key1 content := fun hmem =>
    (base64Encode_no_special _ (hmacSha256_lt key1 content) 32 hmem).1 rfl
  have hps := parseSignatures_v1 (sign key1 content) h32
  have hd1 : base64DecodeGo (sign key1 content) = some (hmacSha256 key1 content) :=
    base64DecodeGo_encode _ (hmacSha256_lt _ _)
  have hd2 : base64DecodeGo (sign key2 content) = some (hmacSha256 key2 content) :=
    base64DecodeGo_encode _ (hmacSha256_lt _ _)
  unfold checkSignaturePhase
  rw [hps]
  rw [if_neg (by simp)]
  simp only [List.any_cons, List.any_nil, Bool.or_false, if_pos rfl, hd1, hd2, lenCtc_eq]
  by_cases he : hmacSha256 key2 content = hmacSha256 key1 content
  · rw [if_pos he]
    simp [he]
  · rw [if_neg he]
    simp [he]

/-! ### Evaluating verification on generated headers -/

theorem getHeaderD_three (k1 k2 k3 key v1 v2 v3 : Bytes) :
    getHeaderD [(k1, v1), (k2, v2), (k3, v3)] key =
      if k3 = key then v3 else if k2 = key then v2 else if k1 = key then v1 else [] := rfl

theorem gen_normalized (key payload id : Bytes) (now : Int) :
    normalizeHeaders (generateTestHeaders key payload id now) =
      generateTestHeaders key payload id now := by
  unfold generateTestHeaders normalizeHeaders
  simp only [List.map]
  rw [(by decide : toLowerB (s2b "webhook-id") = s2b "webhook-id"),
      (by decide : toLowerB (s2b "webhook-timestamp") = s2b "webhook-timestamp"),
      (by decide : toLowerB (s2b "webhook-signature") = s2b "webhook-signature")]

theorem verify_eval (key payload : Bytes) (h : Headers) (tol now : Int)
    (idv tsv sigv : Bytes) (ts : Int)
    (hid : getHeaderD (normalizeHeaders h) (s2b "webhook-id") = idv)
    (hts : getHeaderD (normalizeHeaders h) (s2b "webhook-timestamp") = tsv)
    (hsg : getHeaderD (normalizeHeaders h) (s2b "webhook-signature") = sigv)
    (h1 : idv ≠ []) (h2 : tsv ≠ []) (h3 : sigv ≠ [])
    (hpt : parseInt64 tsv = some ts)
    (htol : ¬(roundF tol < |roundF (wrap64 (now - ts))|)) :
    verifyWithTolerance key payload h tol now =
      checkSignaturePhase key (idv ++ [46] ++ tsv ++ [46] ++ payload) sigv := by
  simp only [verifyWithTolerance, hid, hts, hsg, hpt]
  rw [if_neg h1, if_neg h2, if_neg h3, if_neg htol]

theorem generateTestHeaders_eq (key payload id : Bytes) (now : Int) :
    generateTestHeaders key payload id now =
      [(s2b "webhook-id", if id = [] then s2b "msg_test" else id),
       (s2b "webhook-timestamp", intToDec now),
       (s2b "webhook-signature",
        s2b "v1," ++ sign key
          ((if id = [] then s2b "msg_test" else id) ++ [46] ++ intToDec now ++ [46] ++ payload))] := rfl

/-- Verifying generated headers (with any verifying key) at the generating time
reduces to comparing the two MACs of the signed content. -/
theorem verify_gen (key key2 payload id : Bytes) (now : Int)
    (hn1 : -(2 ^ 63) ≤ now) (hn2 : now < 2 ^ 63) :
    verifyGo key2 payload (generateTestHeaders key payload id now) now =
      (if hmacSha256 key2
            ((if id = [] then s2b "msg_test" else id) ++ [46] ++ intToDec now ++ [46] ++ payload) =
          hmacSha256 key
            ((if id = [] then s2b "msg_test" else id) ++ [46] ++ intToDec now ++ [46] ++ payload)
       then none else some (s2b "signature verification failed")) := by
  have hid0 : (if id = [] then s2b "msg_test" else id) ≠ [] := by
    split
    · decide
    · assumption
  have hnorm := gen_normalized key payload id now
  rw [generateTestHeaders_eq] at hnorm
  have hid : getHeaderD (normalizeHeaders (generateTestHeaders key payload id now))
      (s2b "webhook-id") = (if id = [] then s2b "msg_test" else id) := by
    rw [generateTestHeaders_eq, hnorm, getHeaderD_three, if_neg (by decide), if_neg (by decide),
      if_pos rfl]
  have hts : getHeaderD (normalizeHeaders (generateTestHeaders key payload id now))
      (s2b "webhook-timestamp") = intToDec now := by
    rw [generateTestHeaders_eq, hnorm, getHeaderD_three, if_neg (by decide), if_pos rfl]
  have hsg : getHeaderD (normalizeHeaders (generateTestHeaders key payload id now))
      (s2b "webhook-signature") =
      s2b "v1," ++ sign key
        ((if id = [] then s2b "msg_test" else id) ++ [46] ++ intToDec now ++ [46] ++ payload) := by
    rw [generateTestHeaders_eq, hnorm, getHeaderD_three, if_pos rfl]
  have htol : ¬(roundF 300 < |roundF (wrap64 (now - now))|) := by
    rw [sub_self, (by decide : wrap64 0 = 0), roundF_zero, (by decide : roundF (300 : Int) = 300)]
    simp
  rw [verifyGo, verify_eval key2 payload _ 300 now _ _ _ now hid hts hsg hid0
      (intToDec_ne_nil now) (by rw [(by decide : s2b "v1," = [118, 49, 44])]; simp)
      (parseInt64_intToDec now hn1 hn2) htol]
  exact checkSig_v1_single key key2 _

/-! ### Tolerance-error evaluation -/

theorem verify_eval_tol (key payload : Bytes) (h : Headers) (tol now : Int)
    (idv tsv sigv : Bytes) (ts : Int)
    (hid : getHeaderD (normalizeHeaders h) (s2b "webhook-id") = idv)
    (hts : getHeaderD (normalizeHeaders h) (s2b "webhook-timestamp") = tsv)
    (hsg : getHeaderD (normalizeHeaders h) (s2b "webhook-signature") = sigv)
    (h1 : idv ≠ []) (h2 : tsv ≠ []) (h3 : sigv ≠ [])
    (hpt : parseInt64 tsv = some ts)
    (htol : roundF tol < |roundF (wrap64 (now - ts))|) :
    verifyWithTolerance key payload h tol now =
      some (toleranceMsg (f2i64 |roundF (wrap64 (now - ts))|) tol) := by
  simp only [verifyWithTolerance, hid, hts, hsg, hpt]
  rw [if_neg h1, if_neg h2, if_neg h3, if_pos htol]

theorem toleranceMsg_head (d t : Int) : (toleranceMsg d t).head? = some 116 := rfl

theorem checkSig_ne_toleranceMsg (key content sigHeader : Bytes) (d t : Int) :
    checkSignaturePhase key content sigHeader ≠ some (toleranceMsg d t) := by
  intro hcontra
  rcases checkSig_cases key content sigHeader with h | h | h <;> rw [h] at hcontra
  · exact Option.noConfusion hcontra
  · have hh : (s2b "no valid signatures found").head? = some 110 := rfl
    rw [Option.some.injEq] at hcontra
    rw [hcontra, toleranceMsg_head] at hh
    exact absurd (Option.some.inj hh) (by omega)
  · have hh : (s2b "signature verification failed").head? = some 115 := rfl
    rw [Option.some.injEq] at hcontra
    rw [hcontra, toleranceMsg_head] at hh
    exact absurd (Option.some.inj hh) (by omega)

/-! ### Transport helper lemmas -/

theorem retryAfter_default (ra : Bytes) :
    (if ra = [] then (60 : Int) else (parseInt64 ra).getD 60) = (parseInt64 ra).getD 60 := by
  split
  · rename_i hra
    subst hra
    rfl
  · rfl

theorem mapError_429 (ra : Bytes) :
    mapError 429 ra = .rateLimit ((parseInt64 ra).getD 60) := by
  rw [show mapError 429 ra = .rateLimit (if ra = [] then 60 else (parseInt64 ra).getD 60) from rfl,
    retryAfter_default]

theorem mapError_500 (ra : Bytes) : mapError 500 ra = .api 500 := rfl

theorem doAux_pos (oc : Nat → Outcome) (maxR : Int) (attempt fuel : Nat) (lastErr : Option HErr)
    (hf : 0 < fuel) : 1 ≤ (doAux oc maxR attempt fuel lastErr).2.1 := by
  obtain ⟨f, rfl⟩ : ∃ f, fuel = f + 1 := ⟨fuel - 1, by omega⟩
  simp only [doAux]
  repeat' split
  all_goals simp

/-- One loop step on a 500 response: record the error and retry after a
backoff sleep when attempts remain. -/
theorem doAux_step_500 (oc : Nat → Outcome) (maxR : Int) (attempt f : Nat) (lastErr : Option HErr)
    (ra : Bytes) (hra : oc attempt = .resp 500 ra) :
    doAux oc maxR attempt (f + 1) lastErr =
      if (attempt : Int) < maxR then
        ((doAux oc maxR (attempt + 1) f (some (.api 500))).1,
         (doAux oc maxR (attempt + 1) f (some (.api 500))).2.1 + 1,
         .backoffSleep attempt :: (doAux oc maxR (attempt + 1) f (some (.api 500))).2.2)
      else (.failure (.api 500), 1, []) := by
  simp only [doAux, hra]
  rfl

/-- The dispatch loop on `j` leading 500 responses followed by a 2xx response:
success after exactly j+1 dispatches with a backoff sleep after every failure. -/
theorem doAux_500_then_success (oc : Nat → Outcome) (maxR : Int) (s : Nat) (ra' : Bytes)
    (hs2 : 200 ≤ s) (hs3 : s < 300) :
    ∀ (j attempt fuel : Nat) (lastErr : Option HErr),
      (∀ i, i < j → ∃ ra, oc (attempt + i) = .resp 500 ra) →
      oc (attempt + j) = .resp s ra' →
      ((attempt + j : Nat) : Int) ≤ maxR → j < fuel →
      doAux oc maxR attempt fuel lastErr =
        (.success, j + 1, (List.range j).map (fun i => .backoffSleep (attempt + i))) := by
  intro j
  induction j with
  | zero =>
      intro attempt fuel lastErr _ hsucc _ hfuel
      obtain ⟨f, rfl⟩ : ∃ f, fuel = f + 1 := ⟨fuel - 1, by omega⟩
      rw [Nat.add_zero] at hsucc
      simp only [doAux, hsucc]
      rw [if_pos ⟨hs2, hs3⟩]
      rfl
  | succ j ih =>
      intro attempt fuel lastErr h500 hsucc hmax hfuel
      obtain ⟨f, rfl⟩ : ∃ f, fuel = f + 1 := ⟨fuel - 1, by omega⟩
      obtain ⟨ra, hra⟩ := h500 0 (by omega)
      rw [Nat.add_zero] at hra
      rw [doAux_step_500 oc maxR attempt f lastErr ra hra]
      rw [if_pos (by push_cast at hmax ⊢; omega)]
      rw [ih (attempt + 1) f (some (.api 500))
        (fun i hi => by
          obtain ⟨ra2, hra2⟩ := h500 (i + 1) (by omega)
          exact ⟨ra2, by rw [show attempt + 1 + i = attempt + (i + 1) from by omega]; exact hra2⟩)
        (by rw [show attempt + 1 + j = attempt + (j + 1) from by omega]; exact hsucc)
        (by push_cast at hmax ⊢; omega) (by omega)]
      refine Prod.ext rfl (Prod.ext (by simp) ?_)
      simp only [List.range_succ_eq_map, List.map_cons, List.map_map]
      congr 1
      apply List.map_congr_left
      intro i _
      simp only [Function.comp_apply]
      congr 1
      omega

/-! ### Backoff evaluation -/

/-- For attempts up to 53 the computed float base is exactly min(1000·2^k, 10000):
the product fits int64 and the float64 conversion is exact. -/
theorem backoffBase_eq (k : Nat) (hk : k ≤ 53) :
    backoffBase k = min (1000 * 2 ^ k : Int) 10000 := by
  interval_cases k <;> decide

/-! ## The claims -/

/-- C5: a response classified as AuthenticationError (401), ForbiddenError
(403), NotFoundError (404) or ValidationError (400/422) makes transport.do
return that error after exactly one dispatch and no sleep, for every
configured retry count; and 500 responses followed by a success on a later
attempt give a successful result whose attempt count is the number of
failures plus one. -/
theorem claim_C5_nonretryable :
    (∀ (R : Int) (oc : Nat → Outcome) (s : Nat) (ra : Bytes), 0 ≤ R →
      (s = 401 ∨ s = 403 ∨ s = 404 ∨ s = 400 ∨ s = 422) →
      oc 0 = .resp s ra →
      doGo oc R = (.failure (mapError s ra), 1, [])) ∧
    (∀ (R : Int) (f : Nat) (oc : Nat → Outcome) (s : Nat) (ra' : Bytes),
      (f : Int) ≤ R → 200 ≤ s → s < 300 →
      (∀ i, i < f → ∃ ra, oc i = .resp 500 ra) →
      oc f = .resp s ra' →
      doGo oc R = (.success, f + 1, (List.range f).map (fun i => .backoffSleep i))) := by
  constructor
  · intro R oc s ra hR hs hoc
    obtain ⟨t, ht⟩ : ∃ t, (R + 1).toNat = t + 1 := ⟨R.toNat, by omega⟩
    rw [doGo, ht]
    rcases hs with rfl | rfl | rfl | rfl | rfl <;>
      · simp only [doAux, hoc]
        rfl
  · intro R f oc s ra' hfR hs2 hs3 h500 hsucc
    rw [doGo]
    have := doAux_500_then_success oc R s ra' hs2 hs3 f 0 (R + 1).toNat none
      (fun i hi => by simpa using h500 i hi) (by simpa using hsucc)
      (by push_cast; omega) (by omega)
    simpa using this

/-- One loop step on a 429 response: sleep the Retry-After value and retry when
attempts remain; `lastErr` is left unchanged by this branch. -/
theorem doAux_step_429 (oc : Nat → Outcome) (maxR : Int) (attempt f : Nat) (lastErr : Option HErr)
    (ra : Bytes) (hra : oc attempt = .resp 429 ra) :
    doAux oc maxR attempt (f + 1) lastErr =
      if (attempt : Int) < maxR then
        ((doAux oc maxR (attempt + 1) f lastErr).1,
         (doAux oc maxR (attempt + 1) f lastErr).2.1 + 1,
         .retrySleep ((parseInt64 ra).getD 60) :: (doAux oc maxR (attempt + 1) f lastErr).2.2)
      else (.failure (.rateLimit ((parseInt64 ra).getD 60)), 1, []) := by
  simp only [doAux, hra]
  rw [if_neg (by omega), mapError_429]

/-- C6: a 429 response maps to RateLimitError with RetryAfter the parsed
integer of the Retry-After header, 60 when absent or unparsable; and when
attempts remain the transport sleeps exactly RetryAfter seconds (a
server-directed sleep, not an exponential backoff sleep) and dispatches a
further attempt. -/
theorem claim_C6_rate_limit :
    (∀ ra : Bytes, mapError 429 ra = .rateLimit ((parseInt64 ra).getD 60)) ∧
    (∀ (R : Int) (oc : Nat → Outcome) (ra : Bytes), 1 ≤ R → oc 0 = .resp 429 ra →
      (doGo oc R).2.2.head? = some (.retrySleep ((parseInt64 ra).getD 60)) ∧
      2 ≤ (doGo oc R).2.1) := by
  constructor
  · exact mapError_429
  · intro R oc ra hR hoc
    obtain ⟨t, ht⟩ : ∃ t, (R + 1).toNat = t + 1 := ⟨R.toNat, by omega⟩
    rw [doGo, ht, doAux_step_429 oc R 0 t none ra hoc]
    rw [if_pos (by push_cast; omega)]
    refine ⟨rfl, ?_⟩
    have hpos := doAux_pos oc R 1 t none (by omega)
    simpa using hpos

theorem roundDivTE_ge_of_ge (n d B : Nat) (hd : 0 < d) (h : B * d ≤ n) :
    B ≤ roundDivTE n d := by
  have hq : B ≤ n / d := (Nat.le_div_iff_mul_le hd).2 h
  unfold roundDivTE
  split_ifs <;> omega

theorem roundDivTE_le_of_le (n d B : Nat) (hd : 0 < d) (h : n ≤ B * d) :
    roundDivTE n d ≤ B := by
  have hq : n / d ≤ B := by
    by_contra hc
    push_neg at hc
    have h2 : (B + 1) * d ≤ n := (Nat.le_div_iff_mul_le hd).1 (by omega)
    have hx : (B + 1) * d = B * d + d := by ring
    omega
  have hdm := Nat.div_add_mod n d
  have key : 1 ≤ n % d → n / d + 1 ≤ B := by
    intro hr
    have hAC : d * (n / d) < d * B := by
      have hBd : B * d = d * B := Nat.mul_comm B d
      omega
    have := Nat.lt_of_mul_lt_mul_left hAC
    omega
  unfold roundDivTE
  split_ifs with h1 h2 h3
  · exact hq
  · exact key (by omega)
  · exact hq
  · exact key (by omega)

theorem ratLog2_lt_52 (n d : Nat) (hd : 0 < d) (h : n < 2 ^ 52 * d) :
    ratLog2 n d < 52 := by
  unfold ratLog2
  split_ifs with h1
  · have hnd : n / d < 2 ^ 52 := (Nat.div_lt_iff_lt_mul hd).2 h
    rw [log2F_eq]
    have h0 : n / d ≠ 0 := by
      have h2 : 1 * d ≤ n := by omega
      have := (Nat.le_div_iff_mul_le hd).2 h2
      omega
    have := (Nat.log2_lt h0).2 hnd
    omega
  · have h2 : (0 : Int) ≤ (ceilLog2Aux d n d : Int) := Int.natCast_nonneg _
    omega

theorem fl64pair_eq_lo (n d : Nat) (hn : n ≠ 0) (h52 : ratLog2 n d < 52) :
    fl64pair n d =
      (roundDivTE (n * 2 ^ (52 - ratLog2 n d).toNat) d, (52 - ratLog2 n d).toNat) := by
  unfold fl64pair
  rw [if_neg hn, if_neg (by omega : ¬ (0 ≤ ratLog2 n d - 52))]

theorem fl64pair_ub (n d B : Nat) (hd : 0 < d) (hB : B < 2 ^ 52) (h : n ≤ B * d) :
    (fl64pair n d).1 ≤ B * 2 ^ (fl64pair n d).2 := by
  by_cases hn : n = 0
  · subst hn
    unfold fl64pair
    simp
  · have hBd : B * d < 2 ^ 52 * d := by
      have := (Nat.mul_lt_mul_right hd).2 hB
      exact this
    have h52 : ratLog2 n d < 52 := ratLog2_lt_52 n d hd (by omega)
    rw [fl64pair_eq_lo n d hn h52]
    generalize (52 - ratLog2 n d).toNat = c
    refine roundDivTE_le_of_le _ _ _ hd ?_
    calc n * 2 ^ c ≤ B * d * 2 ^ c := Nat.mul_le_mul_right _ h
      _ = B * 2 ^ c * d := by ring

theorem fl64pair_lb (n d B : Nat) (hd : 0 < d) (h2 : n < 2 ^ 52 * d) (h : B * d ≤ n) :
    B * 2 ^ (fl64pair n d).2 ≤ (fl64pair n d).1 := by
  by_cases hn : n = 0
  · subst hn
    have hB0 : B = 0 := by
      rcases Nat.mul_eq_zero.1 (Nat.le_zero.1 h) with h' | h'
      · exact h'
      · omega
    subst hB0
    unfold fl64pair
    simp
  · have h52 : ratLog2 n d < 52 := ratLog2_lt_52 n d hd h2
    rw [fl64pair_eq_lo n d hn h52]
    generalize (52 - ratLog2 n d).toNat = c
    refine roundDivTE_ge_of_ge _ _ _ hd ?_
    calc B * 2 ^ c * d = B * d * 2 ^ c := by ring
      _ ≤ n * 2 ^ c := Nat.mul_le_mul_right _ h

theorem floor_fl64nd (n d : Nat) :
    ⌊fl64nd n d⌋ = (((fl64pair n d).1 / 2 ^ (fl64pair n d).2 : Nat) : Int) := by
  unfold fl64nd
  rw [show ((2 : ℚ) ^ (fl64pair n d).2) = (((2 ^ (fl64pair n d).2 : Nat) : ℚ)) by push_cast; ring]
  rw [← Int.natCast_floor_eq_floor (by positivity), Nat.floor_div_eq_div]

/-- C7 (amended): for attempts k ≤ 53, when rand.Float64() returns a/2^t (every
value it can return is such a dyadic in [0, 1)), the backoff sleep equals
min(1000·2^k, 10000) milliseconds plus the whole-millisecond part of the
float64 jitter fl64(a/2^t · 1000) — or one millisecond more, because the
float64 addition base+jitter can round up across a millisecond boundary; the
sleep is never below the base and never above 11 seconds, with exactly 11
seconds reachable (see the counterexample, which also shows the formula
failing from k = 54 on, where the 64-bit product 1000·2^k overflows). -/
theorem claim_C7_backoff (k a t : Nat) (hk : k ≤ 53) (ha : a < 2 ^ t) :
    (backoffSleepNs k a t =
        (min (1000 * 2 ^ k : Int) 10000 + ⌊fl64nd (1000 * a) (2 ^ t)⌋) * 1000000 ∨
      backoffSleepNs k a t =
        (min (1000 * 2 ^ k : Int) 10000 + ⌊fl64nd (1000 * a) (2 ^ t)⌋ + 1) * 1000000) ∧
    min (1000 * 2 ^ k : Int) 10000 * 1000000 ≤ backoffSleepNs k a t ∧
    backoffSleepNs k a t ≤ 11000000000 := by
  obtain ⟨N, hN⟩ : ∃ m : Nat, min (1000 * 2 ^ k) 10000 = m := ⟨_, rfl⟩
  have hNle : N ≤ 10000 := by
    rw [← hN]
    exact min_le_right _ _
  have hNge : 1000 ≤ N := by
    rw [← hN]
    refine le_min ?_ (by norm_num)
    calc (1000 : Nat) = 1000 * 1 := by ring
      _ ≤ 1000 * 2 ^ k := Nat.mul_le_mul_left _ Nat.one_le_two_pow
  have hbase : backoffBase k = (N : Int) := by
    rw [backoffBase_eq k hk, ← hN]
    simp [Nat.cast_min]
  have hd1 : (0 : Nat) < 2 ^ t := pow_pos (by norm_num) t
  obtain ⟨j1, j2, hjp⟩ : ∃ x y, fl64pair (1000 * a) (2 ^ t) = (x, y) := ⟨_, _, rfl⟩
  have e1 : (fl64pair (1000 * a) (2 ^ t)).1 = j1 := by rw [hjp]
  have e2 : (fl64pair (1000 * a) (2 ^ t)).2 = j2 := by rw [hjp]
  have hj_ub : j1 ≤ 1000 * 2 ^ j2 := by
    rw [← e1, ← e2]
    exact fl64pair_ub (1000 * a) (2 ^ t) 1000 hd1 (by norm_num)
      (Nat.mul_le_mul_left 1000 (le_of_lt ha))
  have hd2 : (0 : Nat) < 2 ^ j2 := pow_pos (by norm_num) j2
  obtain ⟨Fn, hFnd⟩ : ∃ m : Nat, j1 / 2 ^ j2 = m := ⟨_, rfl⟩
  have hFn_ub : Fn ≤ 1000 := by
    rw [← hFnd]
    by_contra hc
    push_neg at hc
    have h2 : 1001 * 2 ^ j2 ≤ j1 := (Nat.le_div_iff_mul_le hd2).1 (by omega)
    have hx : (1001 : Nat) * 2 ^ j2 = 1000 * 2 ^ j2 + 2 ^ j2 := by ring
    omega
  have hFn_low : Fn * 2 ^ j2 ≤ j1 := by
    have h1 := Nat.div_mul_le_self j1 (2 ^ j2)
    rw [hFnd] at h1
    exact h1
  have hFn_high : j1 < (Fn + 1) * 2 ^ j2 := by
    have h1 := Nat.div_add_mod j1 (2 ^ j2)
    rw [hFnd] at h1
    have h2 := Nat.mod_lt j1 hd2
    have hx : (Fn + 1) * 2 ^ j2 = 2 ^ j2 * Fn + 2 ^ j2 := by ring
    omega
  have hnum : backoffBase k * 2 ^ j2 + (j1 : Int) = ((N * 2 ^ j2 + j1 : Nat) : Int) := by
    rw [hbase]
    push_cast
    ring
  have hS_ub : N * 2 ^ j2 + j1 ≤ 11000 * 2 ^ j2 := by
    have h1 : N * 2 ^ j2 ≤ 10000 * 2 ^ j2 := Nat.mul_le_mul_right _ hNle
    have hx : (11000 : Nat) * 2 ^ j2 = 10000 * 2 ^ j2 + 1000 * 2 ^ j2 := by ring
    omega
  have hS_lb : (N + Fn) * 2 ^ j2 ≤ N * 2 ^ j2 + j1 := by
    have hx : (N + Fn) * 2 ^ j2 = N * 2 ^ j2 + Fn * 2 ^ j2 := by ring
    omega
  have hS_ub2 : N * 2 ^ j2 + j1 ≤ (N + Fn + 1) * 2 ^ j2 := by
    have hx : (N + Fn + 1) * 2 ^ j2 = N * 2 ^ j2 + (Fn + 1) * 2 ^ j2 := by ring
    omega
  obtain ⟨s1, c2, hsp⟩ : ∃ x y, fl64pair (N * 2 ^ j2 + j1) (2 ^ j2) = (x, y) := ⟨_, _, rfl⟩
  have f1 : (fl64pair (N * 2 ^ j2 + j1) (2 ^ j2)).1 = s1 := by rw [hsp]
  have f2 : (fl64pair (N * 2 ^ j2 + j1) (2 ^ j2)).2 = c2 := by rw [hsp]
  have hs_ub : s1 ≤ 11000 * 2 ^ c2 := by
    rw [← f1, ← f2]
    exact fl64pair_ub _ _ 11000 hd2 (by norm_num) hS_ub
  have hs_ub2 : s1 ≤ (N + Fn + 1) * 2 ^ c2 := by
    rw [← f1, ← f2]
    exact fl64pair_ub _ _ (N + Fn + 1) hd2 (by omega) hS_ub2
  have hs_lb : (N + Fn) * 2 ^ c2 ≤ s1 := by
    rw [← f1, ← f2]
    exact fl64pair_lb _ _ (N + Fn) hd2 (by omega) hS_lb
  have hd3 : (0 : Nat) < 2 ^ c2 := pow_pos (by norm_num) c2
  obtain ⟨T, hTd⟩ : ∃ m : Nat, s1 / 2 ^ c2 = m := ⟨_, rfl⟩
  have hT_lb : N + Fn ≤ T := by
    rw [← hTd]
    exact (Nat.le_div_iff_mul_le hd3).2 hs_lb
  have hT_ub : T ≤ N + Fn + 1 := by
    rw [← hTd]
    by_contra hc
    push_neg at hc
    have h2 : (N + Fn + 2) * 2 ^ c2 ≤ s1 := (Nat.le_div_iff_mul_le hd3).1 (by omega)
    have hx : (N + Fn + 2) * 2 ^ c2 = (N + Fn + 1) * 2 ^ c2 + 2 ^ c2 := by ring
    omega
  have hT_ub2 : T ≤ 11000 := by
    rw [← hTd]
    by_contra hc
    push_neg at hc
    have h2 : 11001 * 2 ^ c2 ≤ s1 := (Nat.le_div_iff_mul_le hd3).1 (by omega)
    have hx : (11001 : Nat) * 2 ^ c2 = 11000 * 2 ^ c2 + 2 ^ c2 := by ring
    omega
  have hstep : backoffSleepNs k a t =
      wrap64 (truncDyadic (fl64ipair (backoffBase k * 2 ^ (fl64pair (1000 * a) (2 ^ t)).2 +
          ((fl64pair (1000 * a) (2 ^ t)).1 : Int)) (2 ^ (fl64pair (1000 * a) (2 ^ t)).2)).1
        (fl64ipair (backoffBase k * 2 ^ (fl64pair (1000 * a) (2 ^ t)).2 +
          ((fl64pair (1000 * a) (2 ^ t)).1 : Int)) (2 ^ (fl64pair (1000 * a) (2 ^ t)).2)).2
        * 1000000) := rfl
  rw [e1, e2] at hstep
  have hip : fl64ipair (backoffBase k * 2 ^ j2 + (j1 : Int)) (2 ^ j2) = ((s1 : Int), c2) := by
    rw [hnum]
    unfold fl64ipair
    rw [if_pos (Int.natCast_nonneg (N * 2 ^ j2 + j1)), Int.toNat_natCast, hsp]
  have htr : truncDyadic (s1 : Int) c2 = (T : Int) := by
    unfold truncDyadic
    rw [if_pos (Int.natCast_nonneg s1), Int.toNat_natCast, hTd]
  have hval : backoffSleepNs k a t = (T : Int) * 1000000 := by
    rw [hstep, hip]
    show wrap64 (truncDyadic (s1 : Int) c2 * 1000000) = _
    rw [htr]
    exact wrap64_eq_self _ (by omega) (by omega)
  have hfloor : ⌊fl64nd (1000 * a) (2 ^ t)⌋ = (Fn : Int) := by
    rw [floor_fl64nd, e1, e2, hFnd]
  have hmin : min (1000 * 2 ^ k : Int) 10000 = (N : Int) :=
    (backoffBase_eq k hk).symm.trans hbase
  rw [hval, hfloor, hmin]
  omega

/-- C7 witness: attempt 3 with rand.Float64() = 1/2 satisfies the amended
statement (the sleep is exactly 8000 + 500 milliseconds). -/
theorem claim_C7_backoff_witness :
    (3 : Nat) ≤ 53 ∧ (1 : Nat) < 2 ^ 1 ∧
    ((backoffSleepNs 3 1 1 =
        (min (1000 * 2 ^ 3 : Int) 10000 + ⌊fl64nd (1000 * 1) (2 ^ 1)⌋) * 1000000 ∨
      backoffSleepNs 3 1 1 =
        (min (1000 * 2 ^ 3 : Int) 10000 + ⌊fl64nd (1000 * 1) (2 ^ 1)⌋ + 1) * 1000000) ∧
    min (1000 * 2 ^ 3 : Int) 10000 * 1000000 ≤ backoffSleepNs 3 1 1 ∧
    backoffSleepNs 3 1 1 ≤ 11000000000) :=
  ⟨by norm_num, by norm_num, claim_C7_backoff 3 1 1 (by norm_num) (by norm_num)⟩

/-- C7 counterexample to the original claim: with rand.Float64() equal to
(2^53−1)/2^53 (the largest value it can return), the jitter is the float64
8796093022207999/2^43 = 1000 − 2^(−43) < 1000 ms, yet at attempt 4 (base
10000 ms) the float64 addition 10000 + jitter rounds up to exactly 11000.0,
so the sleep is exactly 11 seconds — not strictly less than 11 seconds and
more than base + ⌊jitter⌋ = 10999 ms; moreover at attempt 54 the product
1000·2^54 wraps int64 and the computed sleep is the minimum int64, not
min(1000·2^54, 10000) ms plus a jitter. -/
theorem claim_C7_backoff_cex :
    fl64pair (1000 * (2 ^ 53 - 1)) (2 ^ 53) = (8796093022207999, 43) ∧
    (8796093022207999 : ℚ) / 2 ^ 43 = 1000 - (1 / 2) ^ 43 ∧
    backoffSleepNs 4 (2 ^ 53 - 1) 53 = 11000000000 ∧
    backoffSleepNs 54 0 0 = -9223372036854775808 := by
  refine ⟨by decide, by norm_num, by decide, by decide⟩

/-- C8: the transport does not abort a backoff sleep on cancellation. With a
500 on attempt 0, maxRetries 3, and the caller's context cancelled while the
transport sleeps before the retry, the model records the full backoff sleep and
a second dispatched attempt; only that second dispatch observes the
cancellation and returns the timeout error. The claim (and §5 of the spec)
requires the sleep to abort with no further dispatch attempt. -/
theorem claim_C8_cancel_during_sleep :
    doGo (fun k => if k = 0 then Outcome.resp 500 [] else Outcome.netErr true) 3 =
      (DoResult.failure HErr.timeout, 2, [SleepEv.backoffSleep 0]) := by decide

/-- C10: NewWebhook fails fatally exactly on the empty secret string; the
secret "whsec_" passes the emptiness check, strips its tag and decodes to the
empty HMAC key. -/
theorem claim_C10_newWebhook :
    (∀ s : Bytes, newWebhook s = none ↔ s = []) ∧
    newWebhook (s2b "whsec_") = some [] := by
  constructor
  · intro s
    constructor
    · intro h
      by_contra hne
      rw [newWebhook, if_neg hne] at h
      exact Option.noConfusion h
    · intro h
      subst h
      rfl
  · decide

theorem toLowerB_toUpperB (k : Bytes) : toLowerB (toUpperB k) = toLowerB k := by
  simp only [toLowerB, toUpperB, List.map_map]
  apply List.map_congr_left
  intro c _
  simp only [Function.comp_apply]
  split_ifs <;> omega

theorem getHeaderD_two (k1 k2 key v1 v2 : Bytes) :
    getHeaderD [(k1, v1), (k2, v2)] key =
      if k2 = key then v2 else if k1 = key then v1 else [] := rfl

/-- C1 (amended): headers produced by GenerateTestHeaders verify (returns nil)
at the same wall-clock time for every payload, message id and key, so signing
then verifying with identical id/timestamp/payload/secret succeeds; and
verifying the generated headers under a different key fails whenever the two
keys produce different MACs of the signed content. (Changing the secret does
NOT always fail: secrets that normalize to the same key still verify — see the
counterexample.) -/
theorem claim_C1_roundtrip (key key2 payload id : Bytes) (now : Int)
    (hn1 : -(2 ^ 63) ≤ now) (hn2 : now < 2 ^ 63) :
    verifyGo key payload (generateTestHeaders key payload id now) now = none ∧
    (hmacSha256 key2
        ((if id = [] then s2b "msg_test" else id) ++ [46] ++ intToDec now ++ [46] ++ payload) ≠
      hmacSha256 key
        ((if id = [] then s2b "msg_test" else id) ++ [46] ++ intToDec now ++ [46] ++ payload) →
      verifyGo key2 payload (generateTestHeaders key payload id now) now =
        some (s2b "signature verification failed")) := by
  constructor
  · rw [verify_gen key key payload id now hn1 hn2, if_pos rfl]
  · intro hne
    rw [verify_gen key key2 payload id now hn1 hn2, if_neg hne]

/-- C1 witness at a concrete key, payload, id and time. -/
theorem claim_C1_roundtrip_witness :
    verifyGo (s2b "k") (s2b "p") (generateTestHeaders (s2b "k") (s2b "p") (s2b "m") 1000) 1000 =
      none ∧
    (hmacSha256 (s2b "j")
        ((if s2b "m" = [] then s2b "msg_test" else s2b "m") ++ [46] ++ intToDec 1000 ++ [46] ++
          s2b "p") ≠
      hmacSha256 (s2b "k")
        ((if s2b "m" = [] then s2b "msg_test" else s2b "m") ++ [46] ++ intToDec 1000 ++ [46] ++
          s2b "p") →
      verifyGo (s2b "j") (s2b "p") (generateTestHeaders (s2b "k") (s2b "p") (s2b "m") 1000) 1000 =
        some (s2b "signature verification failed")) :=
  claim_C1_roundtrip (s2b "k") (s2b "j") (s2b "p") (s2b "m") 1000 (by decide) (by decide)

/-- C1 counterexample: the secrets "whsec_dGVzdA==" and "dGVzdA==" differ, yet
both normalize to the key "test", and headers generated under the first secret
verify under the second: changing the secret between signing and verifying
does not always make verification fail. -/
theorem claim_C1_roundtrip_cex :
    s2b "whsec_dGVzdA==" ≠ s2b "dGVzdA==" ∧
    newWebhook (s2b "whsec_dGVzdA==") = some (s2b "test") ∧
    newWebhook (s2b "dGVzdA==") = some (s2b "test") ∧
    verifyGo ((newWebhook (s2b "dGVzdA==")).getD []) (s2b "p")
      (generateTestHeaders ((newWebhook (s2b "whsec_dGVzdA==")).getD []) (s2b "p") (s2b "m") 1000)
      1000 = none := by
  refine ⟨by decide, by decide, by decide, by decide⟩

/-- C2: with the three headers present, a parseable timestamp and the
timestamp within tolerance, VerifyWithTolerance accepts (returns nil) iff some
space-separated version,signature entry of the signature header has version v1
and base64-decodes to exactly the HMAC-SHA256 of "{id}.{timestamp}.{payload}"
under the key — the expected signature being base64(HMAC-SHA256(...)), any
matching entry sufficing. The comparison in the code is the constant-time
subtle.ConstantTimeCompare, whose functional content is byte equality. -/
theorem claim_C2_accept_iff (key payload : Bytes) (h : Headers) (tol now : Int)
    (idv tsv sigv : Bytes) (ts : Int)
    (hid : getHeaderD (normalizeHeaders h) (s2b "webhook-id") = idv)
    (hts : getHeaderD (normalizeHeaders h) (s2b "webhook-timestamp") = tsv)
    (hsg : getHeaderD (normalizeHeaders h) (s2b "webhook-signature") = sigv)
    (h1 : idv ≠ []) (h2 : tsv ≠ []) (h3 : sigv ≠ [])
    (hpt : parseInt64 tsv = some ts)
    (htol : ¬(roundF tol < |roundF (wrap64 (now - ts))|)) :
    verifyWithTolerance key payload h tol now = none ↔
      ∃ p ∈ parseSignatures sigv,
        p.1 = s2b "v1" ∧
        base64DecodeGo p.2 = some (hmacSha256 key (idv ++ [46] ++ tsv ++ [46] ++ payload)) := by
  rw [verify_eval key payload h tol now idv tsv sigv ts hid hts hsg h1 h2 h3 hpt htol]
  exact checkSig_none_iff key _ sigv

/-- C2 witness at a concrete key, headers and time (the single v1 entry holds
the correct MAC, so both sides of the equivalence are true). -/
theorem claim_C2_accept_iff_witness :
    verifyWithTolerance (s2b "k") (s2b "p")
      [(s2b "webhook-id", s2b "a"), (s2b "webhook-timestamp", s2b "5"),
       (s2b "webhook-signature",
        s2b "v1," ++ sign (s2b "k") (s2b "a" ++ [46] ++ s2b "5" ++ [46] ++ s2b "p"))]
      300 5 = none ↔
      ∃ p ∈ parseSignatures
          (s2b "v1," ++ sign (s2b "k") (s2b "a" ++ [46] ++ s2b "5" ++ [46] ++ s2b "p")),
        p.1 = s2b "v1" ∧
        base64DecodeGo p.2 =
          some (hmacSha256 (s2b "k") (s2b "a" ++ [46] ++ s2b "5" ++ [46] ++ s2b "p")) :=
  claim_C2_accept_iff (s2b "k") (s2b "p") _ 300 5 (s2b "a") (s2b "5")
    (s2b "v1," ++ sign (s2b "k") (s2b "a" ++ [46] ++ s2b "5" ++ [46] ++ s2b "p")) 5
    (by decide) (by decide) (by decide) (by decide) (by decide) (by decide) (by decide) (by decide)

/-- C3 (amended): with the three headers present and the timestamp parsed as
ts, verification rejects with the tolerance error — whose message reports the
observed drift and the configured tolerance — exactly when the float64 image
of |now − ts| (the difference taken with 64-bit wrap-around) exceeds the
float64 image of toleranceSec; whenever |now − ts| and the tolerance are at
most 2^53 the conversions are exact and this is precisely |now − ts| >
toleranceSec, in either direction. (Beyond 2^53 the float64 rounding makes the
code accept some drifts that exceed the tolerance as integers — see the
counterexample.) -/
theorem claim_C3_tolerance (key payload : Bytes) (h : Headers) (tol now : Int)
    (idv tsv sigv : Bytes) (ts : Int)
    (hid : getHeaderD (normalizeHeaders h) (s2b "webhook-id") = idv)
    (hts : getHeaderD (normalizeHeaders h) (s2b "webhook-timestamp") = tsv)
    (hsg : getHeaderD (normalizeHeaders h) (s2b "webhook-signature") = sigv)
    (h1 : idv ≠ []) (h2 : tsv ≠ []) (h3 : sigv ≠ [])
    (hpt : parseInt64 tsv = some ts) :
    (verifyWithTolerance key payload h tol now =
        some (toleranceMsg (f2i64 |roundF (wrap64 (now - ts))|) tol) ↔
      roundF tol < |roundF (wrap64 (now - ts))|) ∧
    (|now - ts| ≤ 2 ^ 53 → 0 ≤ tol → tol ≤ 2 ^ 53 →
      (verifyWithTolerance key payload h tol now =
          some (toleranceMsg (f2i64 |now - ts|) tol) ↔ tol < |now - ts|)) := by
  have ha : verifyWithTolerance key payload h tol now =
      some (toleranceMsg (f2i64 |roundF (wrap64 (now - ts))|) tol) ↔
      roundF tol < |roundF (wrap64 (now - ts))| := by
    constructor
    · intro hv
      by_contra hlt
      rw [verify_eval key payload h tol now idv tsv sigv ts hid hts hsg h1 h2 h3 hpt hlt] at hv
      exact checkSig_ne_toleranceMsg _ _ _ _ _ hv
    · intro hlt
      exact verify_eval_tol key payload h tol now idv tsv sigv ts hid hts hsg h1 h2 h3 hpt hlt
  refine ⟨ha, ?_⟩
  intro hd htol0 htol53
  rcases abs_le.1 hd with ⟨hd1, hd2⟩
  have hw : wrap64 (now - ts) = now - ts := wrap64_eq_self _ (by omega) (by omega)
  have hr : roundF (now - ts) = now - ts := roundF_of_abs_le _ hd
  have hrt : roundF tol = tol := roundF_of_abs_le _ (by rw [abs_of_nonneg htol0]; exact htol53)
  rw [hw, hr, hrt] at ha
  exact ha

/-- C3 witness at a concrete header set 995 seconds stale against a 300-second
tolerance: both directions of the equivalence at a concrete input. -/
theorem claim_C3_tolerance_witness :
    (verifyWithTolerance (s2b "k") (s2b "p")
        [(s2b "webhook-id", s2b "a"), (s2b "webhook-timestamp", s2b "5"),
         (s2b "webhook-signature", s2b "v1,AA==")] 300 1000 =
        some (toleranceMsg (f2i64 |roundF (wrap64 ((1000 : Int) - 5))|) 300) ↔
      roundF 300 < |roundF (wrap64 ((1000 : Int) - 5))|) ∧
    (|(1000 : Int) - 5| ≤ 2 ^ 53 → (0 : Int) ≤ 300 → (300 : Int) ≤ 2 ^ 53 →
      (verifyWithTolerance (s2b "k") (s2b "p")
          [(s2b "webhook-id", s2b "a"), (s2b "webhook-timestamp", s2b "5"),
           (s2b "webhook-signature", s2b "v1,AA==")] 300 1000 =
          some (toleranceMsg (f2i64 |(1000 : Int) - 5|) 300) ↔ (300 : Int) < |(1000 : Int) - 5|)) :=
  claim_C3_tolerance (s2b "k") (s2b "p") _ 300 1000 (s2b "a") (s2b "5") (s2b "v1,AA==") 5
    (by decide) (by decide) (by decide) (by decide) (by decide) (by decide) (by decide)

/-- C3 counterexample: a timestamp whose integer distance from now is 2^53 + 1,
one more than the 2^53 tolerance, is ACCEPTED (the signature being valid),
because float64(2^53 + 1) rounds down to 2^53: the rejection condition is not
exactly |now − ts| > toleranceSec. -/
theorem claim_C3_tolerance_cex :
    (9007199254740992 : Int) < |(1700000000 : Int) - (-9007197554740993)| ∧
    verifyWithTolerance (s2b "test") (s2b "p")
      [(s2b "webhook-id", s2b "msg_1"),
       (s2b "webhook-timestamp", intToDec (-9007197554740993)),
       (s2b "webhook-signature",
        s2b "v1," ++ sign (s2b "test")
          (s2b "msg_1" ++ [46] ++ intToDec (-9007197554740993) ++ [46] ++ s2b "p"))]
      9007199254740992 1700000000 = none := by
  refine ⟨by decide, by decide⟩

/-- C4: omitting exactly one of the three required headers (the other two
present with non-empty values) yields the WebhookVerificationError naming that
header; and the header lookup is case-insensitive: verification depends on the
header names only through their lower-casing, so any two header sets with the
same normalization verify identically, and in particular upper-casing every
header name changes nothing. -/
theorem claim_C4_missing_headers (key payload : Bytes) (tol now : Int) :
    (∀ tsv sigv : Bytes, tsv ≠ [] → sigv ≠ [] →
      verifyWithTolerance key payload
        [(s2b "webhook-timestamp", tsv), (s2b "webhook-signature", sigv)] tol now =
        some (s2b "missing webhook-id header")) ∧
    (∀ idv sigv : Bytes, idv ≠ [] → sigv ≠ [] →
      verifyWithTolerance key payload
        [(s2b "webhook-id", idv), (s2b "webhook-signature", sigv)] tol now =
        some (s2b "missing webhook-timestamp header")) ∧
    (∀ idv tsv : Bytes, idv ≠ [] → tsv ≠ [] →
      verifyWithTolerance key payload
        [(s2b "webhook-id", idv), (s2b "webhook-timestamp", tsv)] tol now =
        some (s2b "missing webhook-signature header")) ∧
    (∀ hA hB : Headers, normalizeHeaders hA = normalizeHeaders hB →
      verifyWithTolerance key payload hA tol now = verifyWithTolerance key payload hB tol now) ∧
    (∀ hA : Headers,
      verifyWithTolerance key payload (hA.map (fun kv => (toUpperB kv.1, kv.2))) tol now =
        verifyWithTolerance key payload hA tol now) := by
  have hfactor : ∀ hA hB : Headers, normalizeHeaders hA = normalizeHeaders hB →
      verifyWithTolerance key payload hA tol now = verifyWithTolerance key payload hB tol now := by
    intro hA hB heq
    unfold verifyWithTolerance
    rw [heq]
  refine ⟨?_, ?_, ?_, hfactor, ?_⟩
  · intro tsv sigv htv hsv
    have hnorm : normalizeHeaders [(s2b "webhook-timestamp", tsv), (s2b "webhook-signature", sigv)] =
        [(s2b "webhook-timestamp", tsv), (s2b "webhook-signature", sigv)] := by
      unfold normalizeHeaders
      simp only [List.map]
      rw [(by decide : toLowerB (s2b "webhook-timestamp") = s2b "webhook-timestamp"),
          (by decide : toLowerB (s2b "webhook-signature") = s2b "webhook-signature")]
    have hid : getHeaderD [(s2b "webhook-timestamp", tsv), (s2b "webhook-signature", sigv)]
        (s2b "webhook-id") = [] := by
      rw [getHeaderD_two, if_neg (by decide), if_neg (by decide)]
    simp only [verifyWithTolerance, hnorm, hid]
    rw [if_pos trivial]
  · intro idv sigv hiv hsv
    have hnorm : normalizeHeaders [(s2b "webhook-id", idv), (s2b "webhook-signature", sigv)] =
        [(s2b "webhook-id", idv), (s2b "webhook-signature", sigv)] := by
      unfold normalizeHeaders
      simp only [List.map]
      rw [(by decide : toLowerB (s2b "webhook-id") = s2b "webhook-id"),
          (by decide : toLowerB (s2b "webhook-signature") = s2b "webhook-signature")]
    have hidv : getHeaderD [(s2b "webhook-id", idv), (s2b "webhook-signature", sigv)]
        (s2b "webhook-id") = idv := by
      rw [getHeaderD_two, if_neg (by decide), if_pos rfl]
    have htsv : getHeaderD [(s2b "webhook-id", idv), (s2b "webhook-signature", sigv)]
        (s2b "webhook-timestamp") = [] := by
      rw [getHeaderD_two, if_neg (by decide), if_neg (by decide)]
    simp only [verifyWithTolerance, hnorm, hidv, htsv]
    rw [if_neg hiv, if_pos trivial]
  · intro idv tsv hiv htv
    have hnorm : normalizeHeaders [(s2b "webhook-id", idv), (s2b "webhook-timestamp", tsv)] =
        [(s2b "webhook-id", idv), (s2b "webhook-timestamp", tsv)] := by
      unfold normalizeHeaders
      simp only [List.map]
      rw [(by decide : toLowerB (s2b "webhook-id") = s2b "webhook-id"),
          (by decide : toLowerB (s2b "webhook-timestamp") = s2b "webhook-timestamp")]
    have hidv : getHeaderD [(s2b "webhook-id", idv), (s2b "webhook-timestamp", tsv)]
        (s2b "webhook-id") = idv := by
      rw [getHeaderD_two, if_neg (by decide), if_pos rfl]
    have htsv : getHeaderD [(s2b "webhook-id", idv), (s2b "webhook-timestamp", tsv)]
        (s2b "webhook-timestamp") = tsv := by
      rw [getHeaderD_two, if_pos rfl]
    have hsgv : getHeaderD [(s2b "webhook-id", idv), (s2b "webhook-timestamp", tsv)]
        (s2b "webhook-signature") = [] := by
      rw [getHeaderD_two, if_neg (by decide), if_neg (by decide)]
    simp only [verifyWithTolerance, hnorm, hidv, htsv, hsgv]
    rw [if_neg hiv, if_neg htv, if_pos trivial]
  · intro hA
    apply hfactor
    unfold normalizeHeaders
    rw [List.map_map]
    apply List.map_congr_left
    intro kv _
    simp only [Function.comp_apply, toLowerB_toUpperB]

/-- C9: for the spec's example secret (base64 of "test-secret"), payload and
message id msg_1, generated headers verify at the generating time; replacing
the version token v1 by v2 while keeping the correct HMAC value makes Verify
reject with the engine's generic no-valid-signature failure, whose message
text is "signature verification failed". -/
theorem claim_C9_version_token :
    newWebhook (s2b "dGVzdC1zZWNyZXQ=") = some (s2b "test-secret") ∧
    verifyGo (s2b "test-secret") examplePayload
      (generateTestHeaders (s2b "test-secret") examplePayload (s2b "msg_1") 1700000000)
      1700000000 = none ∧
    verifyGo (s2b "test-secret") examplePayload
      [(s2b "webhook-id", s2b "msg_1"),
       (s2b "webhook-timestamp", intToDec 1700000000),
       (s2b "webhook-signature",
        s2b "v2," ++ sign (s2b "test-secret")
          (s2b "msg_1" ++ [46] ++ intToDec 1700000000 ++ [46] ++ examplePayload))]
      1700000000 = some (s2b "signature verification failed") := by
  refine ⟨by decide, by decide, by decide⟩

end Hookbase
